import Mathlib

/-!
Verification development for the Avalanche consensus blockchain simulation
(Assignment-1/Arnab-240185-1: avalanche.py, bitcoin.py).

The Python source is shallowly embedded below.  Conventions used throughout:

* Monetary amounts (Python floats used only for exact bookkeeping of small
  decimal values) are modelled as exact rationals.
* Randomness (random.sample, random.choice, random.choices) is modelled by
  explicit oracle parameters: the list of sampled peer indices and the drawn
  coin values are inputs, universally quantified in the theorems.
* Python dicts keyed by block hash are modelled as association lists with a
  first-match lookup and a replace-or-append update; Python sets of hashes
  are modelled as duplicate-free insertion into a list.
* A node's cached `balance` attribute (recomputed from scratch by
  update_balance on every use) is modelled as the derived function
  balanceOf rather than a stored field.
-/

namespace Avalanche

/-- Public keys are (n, e) pairs of naturals; (0, 0) is the system sender. -/
abbrev Pk := Nat × Nat

/-- Embedding of bitcoin.Transaction (the signature and timestamp fields are
produced by the external signing service and do not affect any claim; they
are omitted from the embedded record). -/
structure Tx where
  sender_public_key : Pk
  recipient_public_key : Pk
  amount : ℚ
deriving DecidableEq, Repr

/-- Embedding of bitcoin.Block.  The hash is a content-derived fingerprint
computed by SHA-256 in the source; it is carried as an opaque string field
here. -/
structure Blk where
  index : Nat
  transactions : List Tx
  previous_hash : String
  hash : String
deriving DecidableEq, Repr

/-- Embedding of avalanche.ConsensusState.  The Python dict
`preference_counters = {0: 0, 1: 0}` is represented by the two fields
pc0 and pc1. -/
structure ConsensusState where
  block_hash : String
  current_preference : Nat
  confidence : Nat
  consecutive_count : Nat
  pc0 : Nat
  pc1 : Nat
  finalized : Bool
deriving DecidableEq, Repr

/-- ConsensusState(block_hash=h, current_preference=op) with the dataclass
defaults confidence=0, consecutive_count=0, preference_counters={0:0,1:0},
finalized=False. -/
def initCS (h : String) (op : Nat) : ConsensusState :=
  { block_hash := h, current_preference := op, confidence := 0,
    consecutive_count := 0, pc0 := 0, pc1 := 0, finalized := false }

/-- Embedding of AvalancheNode's consensus-relevant state. -/
structure NodeSt where
  public_key : Pk
  blockchain : List Blk
  consensus_states : List (String × ConsensusState)
  finalized_blocks : List String
deriving DecidableEq, Repr

/-- Dict lookup: self.consensus_states[h] (first match). -/
def lookupCS : List (String × ConsensusState) → String → Option ConsensusState
  | [], _ => none
  | (k, v) :: t, h => if k = h then some v else lookupCS t h

/-- Dict write: self.consensus_states[h] = s (replace first binding or
append). -/
def setCS : List (String × ConsensusState) → String → ConsensusState →
    List (String × ConsensusState)
  | [], h, s => [(h, s)]
  | (k, v) :: t, h, s => if k = h then (h, s) :: t else (k, v) :: setCS t h s

/-- Set insert: self.finalized_blocks.add(h). -/
def addFin (l : List String) (h : String) : List String :=
  if h ∈ l then l else h :: l

/-- List indexing on the network node list. -/
def getNth : List NodeSt → Nat → Option NodeSt
  | [], _ => none
  | x :: _, 0 => some x
  | _ :: t, n + 1 => getNth t n

/-- In-place update of one node in the network node list. -/
def setNth : List NodeSt → Nat → NodeSt → List NodeSt
  | [], _, _ => []
  | _ :: t, 0, y => y :: t
  | x :: t, n + 1, y => x :: setNth t n y

/-- The consensus-state entry of node i for hash h, if any. -/
def entryAt (net : List NodeSt) (i : Nat) (h : String) : Option ConsensusState :=
  (getNth net i).bind fun nd => lookupCS nd.consensus_states h

/-! ### Consensus parameters (AvalancheNode.__init__) -/

/-- k: nodes sampled. -/
def sample_size : Nat := 5
/-- alpha: quorum threshold. -/
def quorum_threshold : Nat := 3
/-- beta: consecutive rounds needed in Snowflake. -/
def decision_threshold : Nat := 1
/-- confidence threshold for Snowball. -/
def confidence_threshold : Nat := 3

/-- The character written 0, used for the genesis-hash test. -/
def zeroCh : Char := Char.ofNat 48

/-- block_hash.startswith("0" * 4): the first four characters are zeros.
(The source's query-side genesis test also looks for a marker substring in
the lowercased hash; that branch only changes the weights of the random
draw, which is an oracle input here, so it does not appear in the embedded
functions.) -/
def hashIsGenesis (h : String) : Bool :=
  decide (h.data.take 4 = [zeroCh, zeroCh, zeroCh, zeroCh])

/-! ### AvalancheNode.query_node_opinion

Queries mutate the *queried* peer: a never-seen item gets a synthesized
initial opinion (the random draw `coin`, a value in {0,1}) which is stored
as a new ConsensusState on the peer before being returned. -/

def query_node_opinion (h : String) (peer : NodeSt) (coin : Fin 2) :
    Nat × NodeSt :=
  if h ∈ peer.finalized_blocks then (1, peer)
  else
    match lookupCS peer.consensus_states h with
    | some s => (s.current_preference, peer)
    | none =>
      let op := coin.val
      (op, { peer with consensus_states := setCS peer.consensus_states h (initCS h op) })

/-- One round of opinion collection: query each sampled index in turn,
threading the network state (each query may store a synthesized opinion on
the queried peer).  Each query is paired with the coin the peer would draw
if it has to synthesize an opinion. -/
def queryMany (h : String) : List (Nat × Fin 2) → List NodeSt →
    List Nat × List NodeSt
  | [], net => ([], net)
  | (i, c) :: rest, net =>
    match getNth net i with
    | some peer =>
      let r := query_node_opinion h peer c
      let pr := queryMany h rest (setNth net i r.2)
      (r.1 :: pr.1, pr.2)
    | none => queryMany h rest net

/-- majority_opinion / majority_state: 1 if accept_count > reject_count
else 0, where accept_count = sum(opinions) and
reject_count = len(opinions) - accept_count. -/
def majorityOf (opinions : List Nat) : Nat :=
  if opinions.sum > opinions.length - opinions.sum then 1 else 0

/-- self.consensus_states[h] = s performed on node i of the network (the
common tail of the three phases). -/
def writeCS (net : List NodeSt) (i : Nat) (h : String) (s : ConsensusState) :
    List NodeSt :=
  match getNth net i with
  | some nd => setNth net i
      { nd with consensus_states := setCS nd.consensus_states h s }
  | none => net

/-! ### Phase bodies -/

/-- The state update performed by one Snowflake round
(AvalancheNode.snowflake_phase, lines 177-190) given the collected
opinions. -/
def snowflakeUpdate (state : ConsensusState) (opinions : List Nat) :
    ConsensusState :=
  let accept_count := opinions.sum
  let quorum_reached := accept_count ≥ quorum_threshold
  let majority_state := majorityOf opinions
  if quorum_reached ∧ majority_state = state.current_preference then
    { state with consecutive_count := state.consecutive_count + 1 }
  else
    { state with consecutive_count := 0, current_preference := majority_state }

/-- AvalancheNode.snowflake_phase for node i on hash h; qs are the sampled
peer indices with their synthesis coins.  Returns whether
consecutive_count reached the decision threshold, plus the new network. -/
def snowflake_phase (i : Nat) (h : String) (qs : List (Nat × Fin 2))
    (net : List NodeSt) : Bool × List NodeSt :=
  match getNth net i with
  | none => (false, net)
  | some self =>
    match lookupCS self.consensus_states h with
    | none => (false, net)
    | some state =>
      let pr := queryMany h qs net
      let state' := snowflakeUpdate state pr.1
      (decide (state'.consecutive_count ≥ decision_threshold),
       writeCS pr.2 i h state')

/-- The state update performed by one Snowball round
(AvalancheNode.snowball_phase, lines 214-229) given the collected
opinions. -/
def snowballUpdate (state : ConsensusState) (opinions : List Nat) :
    ConsensusState :=
  let accept_count := opinions.sum
  let reject_count := opinions.length - accept_count
  let s1 :=
    if accept_count ≥ quorum_threshold then
      { state with
          pc1 := state.pc1 + 1
          current_preference :=
            if state.pc1 + 1 > state.pc0 then 1 else state.current_preference }
    else if reject_count ≥ quorum_threshold then
      { state with
          pc0 := state.pc0 + 1
          current_preference :=
            if state.pc0 + 1 > state.pc1 then 0 else state.current_preference }
    else state
  { s1 with confidence := s1.confidence + 1 }

/-- AvalancheNode.snowball_phase for node i on hash h. -/
def snowball_phase (i : Nat) (h : String) (qs : List (Nat × Fin 2))
    (net : List NodeSt) : Bool × List NodeSt :=
  match getNth net i with
  | none => (false, net)
  | some self =>
    match lookupCS self.consensus_states h with
    | none => (false, net)
    | some state =>
      let pr := queryMany h qs net
      let state' := snowballUpdate state pr.1
      (decide (state'.confidence ≥ confidence_threshold),
       writeCS pr.2 i h state')

/-- Marking a state finalized (avalanche_phase). -/
def finalizeCS (s : ConsensusState) : ConsensusState :=
  { s with finalized := true }

/-- AvalancheNode.avalanche_phase: finalize the decision; on acceptance the
hash joins the node's finalized set. -/
def avalanche_phase (i : Nat) (h : String) (net : List NodeSt) :
    Bool × List NodeSt :=
  match getNth net i with
  | none => (false, net)
  | some self =>
    match lookupCS self.consensus_states h with
    | none => (false, net)
    | some state =>
      let self' :=
        { self with
            consensus_states := setCS self.consensus_states h (finalizeCS state)
            finalized_blocks :=
              if state.current_preference = 1 then
                addFin self.finalized_blocks h
              else self.finalized_blocks }
      (decide (state.current_preference = 1), setNth net i self')

/-- AvalancheNode.slush_phase: collect one sample of opinions and adopt the
majority. -/
def slush_phase (h : String) (qs : List (Nat × Fin 2)) (net : List NodeSt) :
    Nat × List NodeSt :=
  let pr := queryMany h qs net
  (majorityOf pr.1, pr.2)

/-! ### participate_in_consensus -/

/-- for _ in range(fuel): if snowflake_phase(block): break -/
def snowflakeLoop : Nat → List (List (Nat × Fin 2)) → Nat → String →
    List NodeSt → Bool × List NodeSt
  | 0, _, _, _, net => (false, net)
  | fuel + 1, rounds, i, h, net =>
    let r := snowflake_phase i h (rounds.headD []) net
    if r.1 then (true, r.2) else snowflakeLoop fuel rounds.tail i h r.2

/-- for _ in range(fuel): if snowball_phase(block): break -/
def snowballLoop : Nat → List (List (Nat × Fin 2)) → Nat → String →
    List NodeSt → Bool × List NodeSt
  | 0, _, _, _, net => (false, net)
  | fuel + 1, rounds, i, h, net =>
    let r := snowball_phase i h (rounds.headD []) net
    if r.1 then (true, r.2) else snowballLoop fuel rounds.tail i h r.2

/-- Oracle inputs for one node's participation: the biased coin drawn for a
genesis/bootstrap item, the Slush sample, and the per-round Snowflake and
Snowball samples. -/
structure PIn where
  gcoin : Fin 2
  slushQs : List (Nat × Fin 2)
  sfRounds : List (List (Nat × Fin 2))
  sbRounds : List (List (Nat × Fin 2))
deriving Repr

/-- Phases 2-4 of participation (the Snowflake loop of 5 rounds, the
Snowball loop of 10 rounds, then the final Avalanche step; the loops'
success flags only affect logging). -/
def runPhases (i : Nat) (h : String) (inp : PIn) (net : List NodeSt) :
    Bool × List NodeSt :=
  let r1 := snowflakeLoop 5 inp.sfRounds i h net
  let r2 := snowballLoop 10 inp.sbRounds i h r1.2
  avalanche_phase i h r2.2

/-- AvalancheNode.participate_in_consensus for node i on hash h.
Short-circuits on an already-finalized item; otherwise lazily initializes
the ConsensusState (biased coin for genesis-prefixed hashes or an empty
local chain, Slush majority otherwise) and runs the remaining phases. -/
def participate_in_consensus (i : Nat) (h : String) (inp : PIn)
    (net : List NodeSt) : Bool × List NodeSt :=
  match getNth net i with
  | none => (false, net)
  | some self =>
    if h ∈ self.finalized_blocks then (true, net)
    else
      match lookupCS self.consensus_states h with
      | some s =>
        if s.finalized then (decide (s.current_preference = 1), net)
        else runPhases i h inp net
      | none =>
        let pr :=
          if hashIsGenesis h || self.blockchain.isEmpty then
            (inp.gcoin.val, net)
          else slush_phase h inp.slushQs net
        runPhases i h inp (writeCS pr.2 i h (initCS h pr.1))

/-! ### Ledger integration -/

/-- AvalancheNode.add_block: append the block, recompute the (derived)
balance, and add the hash to the finalized set. -/
def add_block (b : Blk) (n : NodeSt) : NodeSt :=
  { n with
      blockchain := n.blockchain ++ [b]
      finalized_blocks := addFin n.finalized_blocks b.hash }

/-- accept_count = sum(consensus_results): the number of True outcomes. -/
def acceptCount (rs : List Bool) : Nat := (rs.filter (fun r => r)).length

/-- The aggregation in run_consensus_on_block: accepted iff
accept_count > reject_count (strict majority; a tie is rejected). -/
def networkDecision (rs : List Bool) : Bool :=
  decide (acceptCount rs > rs.length - acceptCount rs)

/-- for node in self.nodes: node.participate_in_consensus(block) —
sequential participation of nodes i, i+1, ... with per-node oracle
inputs, collecting the boolean outcomes. -/
def participateAll (h : String) : List PIn → Nat → List NodeSt →
    List Bool × List NodeSt
  | [], _, net => ([], net)
  | inp :: rest, i, net =>
    let r := participate_in_consensus i h inp net
    let pr := participateAll h rest (i + 1) r.2
    (r.1 :: pr.1, pr.2)

/-- AvalancheBlockchain.run_consensus_on_block.  The genesis special case
(index 0 and an empty chain at nodes[0]) force-accepts on every node;
otherwise all nodes participate and the strict majority decides.  On
acceptance, every node that lacks the block appends it.  (The mempool
filtering on acceptance lives on the blockchain object, not in any node
state, and is omitted.) -/
def run_consensus_on_block (b : Blk) (ins : List PIn) (net : List NodeSt) :
    Bool × List NodeSt :=
  let genesisCase :=
    decide (b.index = 0) &&
      (match getNth net 0 with
       | some n0 => n0.blockchain.isEmpty
       | none => false)
  if genesisCase then
    (true,
     net.map fun n =>
       let n' := add_block b n
       { n' with finalized_blocks := addFin n'.finalized_blocks b.hash })
  else
    let pr := participateAll b.hash ins 0 net
    if networkDecision pr.1 then
      (true,
       pr.2.map fun n =>
         if b.hash ∈ n.blockchain.map Blk.hash then n else add_block b n)
    else (false, pr.2)

/-! ### Balances and transaction creation -/

/-- The signed effect of one transaction on the balance of public key pk
(the two independent if-branches of update_balance). -/
def txDelta (pk : Pk) (t : Tx) : ℚ :=
  (if t.recipient_public_key = pk then t.amount else 0) -
    (if t.sender_public_key = pk then t.amount else 0)

/-- Balance replay over a flat transaction list. -/
def balTx (txs : List Tx) (pk : Pk) : ℚ := (txs.map (txDelta pk)).sum

/-- All transactions of a chain, in block order. -/
def allTxs (chain : List Blk) : List Tx := (chain.map Blk.transactions).flatten

/-- AvalancheNode.update_balance / get_balance: full replay of the node's
local chain. -/
def balanceOf (chain : List Blk) (pk : Pk) : ℚ := balTx (allTxs chain) pk

/-- Total issuance: the summed amounts of system-sender ((0,0))
transactions in the chain. -/
def issuedTotal (chain : List Blk) : ℚ :=
  (((allTxs chain).filter fun t => t.sender_public_key = (0, 0)).map
    Tx.amount).sum

/-- AvalancheNode.create_transaction: refuse iff the replayed balance is
below the requested amount; otherwise produce the (signed) transaction. -/
def create_transaction (chain : List Blk) (selfPk recipient : Pk)
    (amount : ℚ) : Option Tx :=
  if balanceOf chain selfPk < amount then none
  else some { sender_public_key := selfPk, recipient_public_key := recipient,
              amount := amount }

/-! ### Peer sampling -/

/-- The model of random.sample(pop, k): the randomness is a permutation of
the index range of pop (supplied as the oracle input idxs); the sample is
the first k elements in that order. -/
def randomSample {α : Type} (idxs : List Nat) (pop : List α) (k : Nat) :
    List α :=
  (idxs.filterMap fun j => pop.get? j).take k

/-- AvalancheNode.sample_nodes: filter out self, clamp the sample size to
the available peers, and draw without replacement. -/
def sample_nodes {α : Type} [DecidableEq α] (network : List α) (self : α)
    (idxs : List Nat) : List α :=
  let available := network.filter fun n => decide (n ≠ self)
  let k := min sample_size available.length
  randomSample idxs available k

end Avalanche

namespace Avalanche

/-! ## Lemmas: association list and network indexing -/

theorem lookupCS_setCS_self (m : List (String × ConsensusState)) (h : String)
    (s : ConsensusState) : lookupCS (setCS m h s) h = some s := by
  induction m with
  | nil => simp [setCS, lookupCS]
  | cons kv t ih =>
    obtain ⟨k, v⟩ := kv
    by_cases hk : k = h
    · subst hk; simp [setCS, lookupCS]
    · simp [setCS, lookupCS, hk, ih]

theorem lookupCS_setCS_ne (m : List (String × ConsensusState)) (h h' : String)
    (s : ConsensusState) (hne : h' ≠ h) :
    lookupCS (setCS m h s) h' = lookupCS m h' := by
  have hne' : ¬ h = h' := fun e => hne e.symm
  induction m with
  | nil => simp [setCS, lookupCS, hne']
  | cons kv t ih =>
    obtain ⟨k, v⟩ := kv
    by_cases hk : k = h
    · subst hk
      simp [setCS, lookupCS, hne']
    · simp [setCS, lookupCS, hk, ih]

theorem lookupCS_setCS_cases (m : List (String × ConsensusState))
    (h h' : String) (s v : ConsensusState)
    (hv : lookupCS (setCS m h s) h' = some v) :
    v = s ∨ lookupCS m h' = some v := by
  by_cases hc : h' = h
  · subst hc; rw [lookupCS_setCS_self] at hv; exact Or.inl (Option.some.inj hv).symm
  · rw [lookupCS_setCS_ne _ _ _ _ hc] at hv; exact Or.inr hv

theorem getNth_setNth_ne (l : List NodeSt) (j i : Nat) (y : NodeSt)
    (hne : j ≠ i) : getNth (setNth l j y) i = getNth l i := by
  induction l generalizing i j with
  | nil => simp [setNth]
  | cons x t ih =>
    cases j with
    | zero =>
      cases i with
      | zero => exact absurd rfl hne
      | succ i => simp [setNth, getNth]
    | succ j =>
      cases i with
      | zero => simp [setNth, getNth]
      | succ i =>
        simp only [setNth, getNth]
        exact ih j i fun e => hne (by rw [e])

theorem getNth_setNth_self (l : List NodeSt) (j : Nat) (y x : NodeSt)
    (hx : getNth l j = some x) : getNth (setNth l j y) j = some y := by
  induction l generalizing j with
  | nil => simp [getNth] at hx
  | cons z t ih =>
    cases j with
    | zero => simp [setNth, getNth]
    | succ j =>
      simp only [setNth, getNth] at hx ⊢
      exact ih j hx

theorem getNth_setNth_cases (l : List NodeSt) (j i : Nat) (y nd : NodeSt)
    (hnd : getNth (setNth l j y) i = some nd) :
    (i = j ∧ nd = y) ∨ getNth l i = some nd := by
  by_cases hij : i = j
  · subst hij
    induction l generalizing i with
    | nil => simp [setNth, getNth] at hnd
    | cons z t ih =>
      cases i with
      | zero =>
        simp only [setNth, getNth] at hnd
        exact Or.inl ⟨rfl, (Option.some.inj hnd).symm⟩
      | succ i =>
        simp only [setNth, getNth] at hnd
        rcases ih i hnd with ⟨_, h⟩ | h
        · exact Or.inl ⟨rfl, h⟩
        · exact Or.inr h
  · rw [getNth_setNth_ne _ _ _ _ fun e => hij e.symm] at hnd
    exact Or.inr hnd

theorem getNth_map (f : NodeSt → NodeSt) (l : List NodeSt) (i : Nat) :
    getNth (l.map f) i = (getNth l i).map f := by
  induction l generalizing i with
  | nil => simp [getNth]
  | cons x t ih =>
    cases i with
    | zero => simp [getNth]
    | succ i => simpa [getNth] using ih i

end Avalanche

namespace Avalanche

/-! ## Lemmas: opinion queries only ever insert missing entries -/

theorem query_fb (h : String) (peer : NodeSt) (c : Fin 2) :
    ((query_node_opinion h peer c).2).finalized_blocks =
      peer.finalized_blocks := by
  by_cases hf : h ∈ peer.finalized_blocks
  · simp [query_node_opinion, hf]
  · cases hcs : lookupCS peer.consensus_states h <;>
      simp [query_node_opinion, hf, hcs]

theorem query_preserves_entry (h2 h : String) (peer : NodeSt) (c : Fin 2)
    (s : ConsensusState)
    (hs : lookupCS peer.consensus_states h = some s) :
    lookupCS ((query_node_opinion h2 peer c).2).consensus_states h = some s := by
  by_cases hf : h2 ∈ peer.finalized_blocks
  · simpa [query_node_opinion, hf] using hs
  · cases hcs : lookupCS peer.consensus_states h2 with
    | some s2 => simpa [query_node_opinion, hf, hcs] using hs
    | none =>
      have hne : h ≠ h2 := by
        rintro rfl
        rw [hs] at hcs
        exact Option.noConfusion hcs
      have hres : (query_node_opinion h2 peer c).2 =
          { peer with
              consensus_states := setCS peer.consensus_states h2 (initCS h2 c.val) } := by
        simp [query_node_opinion, hf, hcs]
      rw [hres]
      show lookupCS (setCS peer.consensus_states h2 (initCS h2 c.val)) h = some s
      rw [lookupCS_setCS_ne _ _ _ _ hne]
      exact hs

theorem entryAt_writeCS_ne (net : List NodeSt) (j : Nat) (h2 : String)
    (s2 : ConsensusState) (i : Nat) (h : String)
    (hne : j ≠ i ∨ h2 ≠ h) :
    entryAt (writeCS net j h2 s2) i h = entryAt net i h := by
  unfold writeCS
  cases hj : getNth net j with
  | none => rfl
  | some nd =>
    by_cases hij : j = i
    · subst hij
      rcases hne with hne | hne
      · exact absurd rfl hne
      · simp only [entryAt, getNth_setNth_self net j _ nd hj, hj,
          Option.bind_some]
        exact lookupCS_setCS_ne _ _ _ _ fun e => hne e.symm
    · simp only [entryAt, getNth_setNth_ne net j i _ hij]

theorem entryAt_writeCS_self (net : List NodeSt) (j : Nat) (h2 : String)
    (s2 : ConsensusState) (nd : NodeSt) (hnd : getNth net j = some nd) :
    entryAt (writeCS net j h2 s2) j h2 = some s2 := by
  unfold writeCS
  rw [hnd]
  simp only [entryAt, getNth_setNth_self net j _ nd hnd, Option.bind_some]
  exact lookupCS_setCS_self _ _ _

theorem queryMany_preserves_entry (h2 : String) (qs : List (Nat × Fin 2))
    (net : List NodeSt) (i : Nat) (h : String) (s : ConsensusState)
    (hs : entryAt net i h = some s) :
    entryAt (queryMany h2 qs net).2 i h = some s := by
  induction qs generalizing net with
  | nil => exact hs
  | cons q rest ih =>
    obtain ⟨j, c⟩ := q
    simp only [queryMany]
    cases hj : getNth net j with
    | none => exact ih net hs
    | some peer =>
      apply ih
      by_cases hij : j = i
      · subst hij
        have hpl : lookupCS peer.consensus_states h = some s := by
          simpa [entryAt, hj] using hs
        simp only [entryAt, getNth_setNth_self net j _ peer hj,
          Option.bind_some]
        exact query_preserves_entry h2 h peer c s hpl
      · simpa only [entryAt, getNth_setNth_ne net j i _ hij] using hs

end Avalanche

namespace Avalanche

/-! ## Lemmas: the phases never touch another item's consensus state -/

theorem snowflake_phase_preserves (i : Nat) (h : String)
    (qs : List (Nat × Fin 2)) (net : List NodeSt) (i0 : Nat) (h0 : String)
    (s : ConsensusState) (hne : i ≠ i0 ∨ h ≠ h0)
    (hs : entryAt net i0 h0 = some s) :
    entryAt (snowflake_phase i h qs net).2 i0 h0 = some s := by
  cases hi : getNth net i with
  | none => simp only [snowflake_phase, hi]; exact hs
  | some self =>
    cases hcs : lookupCS self.consensus_states h with
    | none => simp only [snowflake_phase, hi, hcs]; exact hs
    | some state =>
      simp only [snowflake_phase, hi, hcs]
      rw [entryAt_writeCS_ne _ _ _ _ _ _ hne]
      exact queryMany_preserves_entry h qs net i0 h0 s hs

theorem snowball_phase_preserves (i : Nat) (h : String)
    (qs : List (Nat × Fin 2)) (net : List NodeSt) (i0 : Nat) (h0 : String)
    (s : ConsensusState) (hne : i ≠ i0 ∨ h ≠ h0)
    (hs : entryAt net i0 h0 = some s) :
    entryAt (snowball_phase i h qs net).2 i0 h0 = some s := by
  cases hi : getNth net i with
  | none => simp only [snowball_phase, hi]; exact hs
  | some self =>
    cases hcs : lookupCS self.consensus_states h with
    | none => simp only [snowball_phase, hi, hcs]; exact hs
    | some state =>
      simp only [snowball_phase, hi, hcs]
      rw [entryAt_writeCS_ne _ _ _ _ _ _ hne]
      exact queryMany_preserves_entry h qs net i0 h0 s hs

theorem avalanche_phase_preserves (i : Nat) (h : String) (net : List NodeSt)
    (i0 : Nat) (h0 : String) (s : ConsensusState) (hne : i ≠ i0 ∨ h ≠ h0)
    (hs : entryAt net i0 h0 = some s) :
    entryAt (avalanche_phase i h net).2 i0 h0 = some s := by
  cases hi : getNth net i with
  | none => simp only [avalanche_phase, hi]; exact hs
  | some self =>
    cases hcs : lookupCS self.consensus_states h with
    | none => simp only [avalanche_phase, hi, hcs]; exact hs
    | some state =>
      simp only [avalanche_phase, hi, hcs]
      by_cases hii : i = i0
      · subst hii
        rcases hne with hne | hne
        · exact absurd rfl hne
        · simp only [entryAt, getNth_setNth_self net i _ self hi,
            Option.some_bind]
          rw [lookupCS_setCS_ne _ _ _ _ fun e => hne e.symm]
          simpa [entryAt, hi] using hs
      · simpa only [entryAt, getNth_setNth_ne net i i0 _ hii] using hs

theorem snowflakeLoop_preserves (fuel : Nat)
    (rounds : List (List (Nat × Fin 2))) (i : Nat) (h : String)
    (net : List NodeSt) (i0 : Nat) (h0 : String) (s : ConsensusState)
    (hne : i ≠ i0 ∨ h ≠ h0) (hs : entryAt net i0 h0 = some s) :
    entryAt (snowflakeLoop fuel rounds i h net).2 i0 h0 = some s := by
  induction fuel generalizing rounds net with
  | zero => exact hs
  | succ fuel ih =>
    simp only [snowflakeLoop]
    have hstep := snowflake_phase_preserves i h (rounds.headD []) net i0 h0 s
      hne hs
    by_cases hdone : (snowflake_phase i h (rounds.headD []) net).1
    · simp only [hdone, if_true]
      exact hstep
    · simp only [hdone, if_false, Bool.false_eq_true]
      exact ih rounds.tail _ hstep

theorem snowballLoop_preserves (fuel : Nat)
    (rounds : List (List (Nat × Fin 2))) (i : Nat) (h : String)
    (net : List NodeSt) (i0 : Nat) (h0 : String) (s : ConsensusState)
    (hne : i ≠ i0 ∨ h ≠ h0) (hs : entryAt net i0 h0 = some s) :
    entryAt (snowballLoop fuel rounds i h net).2 i0 h0 = some s := by
  induction fuel generalizing rounds net with
  | zero => exact hs
  | succ fuel ih =>
    simp only [snowballLoop]
    have hstep := snowball_phase_preserves i h (rounds.headD []) net i0 h0 s
      hne hs
    by_cases hdone : (snowball_phase i h (rounds.headD []) net).1
    · simp only [hdone, if_true]
      exact hstep
    · simp only [hdone, if_false, Bool.false_eq_true]
      exact ih rounds.tail _ hstep

theorem runPhases_preserves (i : Nat) (h : String) (inp : PIn)
    (net : List NodeSt) (i0 : Nat) (h0 : String) (s : ConsensusState)
    (hne : i ≠ i0 ∨ h ≠ h0) (hs : entryAt net i0 h0 = some s) :
    entryAt (runPhases i h inp net).2 i0 h0 = some s := by
  unfold runPhases
  exact avalanche_phase_preserves i h _ i0 h0 s hne
    (snowballLoop_preserves 10 inp.sbRounds i h _ i0 h0 s hne
      (snowflakeLoop_preserves 5 inp.sfRounds i h net i0 h0 s hne hs))

end Avalanche

namespace Avalanche

/-! ## Lemmas: participation and network consensus preserve finalized
entries -/

theorem participate_preserves_finalized (j : Nat) (h2 : String) (inp : PIn)
    (net : List NodeSt) (i : Nat) (h : String) (s : ConsensusState)
    (hs : entryAt net i h = some s) (hfin : s.finalized = true) :
    entryAt (participate_in_consensus j h2 inp net).2 i h = some s := by
  cases hj : getNth net j with
  | none => simp only [participate_in_consensus, hj]; exact hs
  | some self =>
    by_cases hfb : h2 ∈ self.finalized_blocks
    · simp only [participate_in_consensus, hj, if_pos hfb]; exact hs
    · cases hcs : lookupCS self.consensus_states h2 with
      | some s2 =>
        by_cases hf2 : s2.finalized
        · simp only [participate_in_consensus, hj, if_neg hfb, hcs, hf2,
            if_true]
          exact hs
        · have hne : j ≠ i ∨ h2 ≠ h := by
            by_cases hji : j = i
            · right
              rintro rfl
              subst hji
              have : s2 = s := by
                have := hs
                simp only [entryAt, hj, Option.some_bind] at this
                rw [hcs] at this
                exact Option.some.inj this
              rw [this, hfin] at hf2
              exact hf2 rfl
            · exact Or.inl hji
          simp only [participate_in_consensus, hj, if_neg hfb, hcs, hf2,
            if_false, Bool.false_eq_true]
          exact runPhases_preserves j h2 inp net i h s hne hs
      | none =>
        have hne : j ≠ i ∨ h2 ≠ h := by
          by_cases hji : j = i
          · right
            rintro rfl
            subst hji
            have := hs
            simp only [entryAt, hj, Option.some_bind] at this
            rw [hcs] at this
            exact Option.noConfusion this
          · exact Or.inl hji
        simp only [participate_in_consensus, hj, if_neg hfb, hcs]
        apply runPhases_preserves j h2 inp _ i h s hne
        by_cases hg : hashIsGenesis h2 || self.blockchain.isEmpty
        · simp only [hg, if_true]
          rw [entryAt_writeCS_ne _ _ _ _ _ _ hne]
          exact hs
        · simp only [hg, if_false, Bool.false_eq_true]
          rw [entryAt_writeCS_ne _ _ _ _ _ _ hne]
          unfold slush_phase
          exact queryMany_preserves_entry h2 inp.slushQs net i h s hs

theorem participateAll_preserves_finalized (h2 : String) (ins : List PIn)
    (j : Nat) (net : List NodeSt) (i : Nat) (h : String) (s : ConsensusState)
    (hs : entryAt net i h = some s) (hfin : s.finalized = true) :
    entryAt (participateAll h2 ins j net).2 i h = some s := by
  induction ins generalizing j net with
  | nil => exact hs
  | cons inp rest ih =>
    simp only [participateAll]
    exact ih (j + 1) _
      (participate_preserves_finalized j h2 inp net i h s hs hfin)

theorem entryAt_map_cs (net : List NodeSt) (i : Nat) (h : String)
    (f : NodeSt → NodeSt)
    (hf : ∀ n, (f n).consensus_states = n.consensus_states) :
    entryAt (net.map f) i h = entryAt net i h := by
  simp only [entryAt, getNth_map]
  cases getNth net i <;> simp [hf]

theorem run_consensus_preserves_finalized (b : Blk) (ins : List PIn)
    (net : List NodeSt) (i : Nat) (h : String) (s : ConsensusState)
    (hs : entryAt net i h = some s) (hfin : s.finalized = true) :
    entryAt (run_consensus_on_block b ins net).2 i h = some s := by
  unfold run_consensus_on_block
  by_cases hg : (decide (b.index = 0) &&
      (match getNth net 0 with
       | some n0 => n0.blockchain.isEmpty
       | none => false)) = true
  · simp only [hg, if_true]
    rw [entryAt_map_cs]
    · exact hs
    · intro n; rfl
  · simp only [hg, if_false, Bool.false_eq_true]
    have hpre := participateAll_preserves_finalized b.hash ins 0 net i h s hs
      hfin
    by_cases hd : networkDecision (participateAll b.hash ins 0 net).1
    · simp only [hd, if_true]
      rw [entryAt_map_cs]
      · exact hpre
      · intro n
        by_cases hb : b.hash ∈ n.blockchain.map Blk.hash <;> simp [hb, add_block]
    · simp only [hd, if_false, Bool.false_eq_true]
      exact hpre

end Avalanche

namespace Avalanche

/-! ## Shared concrete objects for witnesses and counterexamples -/

/-- A non-genesis block fingerprint. -/
def hashA : String := "aa"

/-- A second non-genesis block fingerprint. -/
def hashB : String := "bb"

/-- A predecessor fingerprint. -/
def hashZ : String := "zz"

/-- Oracle input with empty samples (every round observes no opinions). -/
def emptyPIn : PIn :=
  { gcoin := 0, slushQs := [], sfRounds := [], sbRounds := [] }

/-- A finalized-accept consensus state for hashA. -/
def csFin : ConsensusState :=
  { block_hash := hashA, current_preference := 1, confidence := 3,
    consecutive_count := 1, pc0 := 0, pc1 := 3, finalized := true }

/-- A node holding the finalized state csFin for hashA. -/
def ndFin : NodeSt :=
  { public_key := (1, 1), blockchain := [], consensus_states := [(hashA, csFin)],
    finalized_blocks := [hashA] }

/-- A one-node network around ndFin. -/
def netFin : List NodeSt := [ndFin]

/-- A non-genesis block with fingerprint hashA. -/
def blkA : Blk :=
  { index := 1, transactions := [], previous_hash := hashZ, hash := hashA }

/-- C7: once an item's ConsensusState on a node is finalized, none of the
public operations — another participation (any node, any item), an opinion
query against the node, or a network consensus run — ever changes that
entry; in particular its current_preference is immutable. -/
theorem finalized_preference_immutable (net : List NodeSt) (i : Nat)
    (h : String) (s : ConsensusState) (nd : NodeSt) (j : Nat) (h2 : String)
    (inp : PIn) (b : Blk) (ins : List PIn) (h3 : String) (c : Fin 2)
    (hnd : getNth net i = some nd)
    (hs : lookupCS nd.consensus_states h = some s)
    (hfin : s.finalized = true) :
    entryAt (participate_in_consensus j h2 inp net).2 i h = some s ∧
    lookupCS ((query_node_opinion h3 nd c).2).consensus_states h = some s ∧
    entryAt (run_consensus_on_block b ins net).2 i h = some s := by
  have hentry : entryAt net i h = some s := by
    simp only [entryAt, hnd, Option.some_bind]
    exact hs
  exact ⟨participate_preserves_finalized j h2 inp net i h s hentry hfin,
    query_preserves_entry h3 h nd c s hs,
    run_consensus_preserves_finalized b ins net i h s hentry hfin⟩

/-- Witness for finalized_preference_immutable at a concrete network. -/
theorem finalized_preference_immutable_witness :
    (getNth netFin 0 = some ndFin ∧
     lookupCS ndFin.consensus_states hashA = some csFin ∧
     csFin.finalized = true) ∧
    (entryAt (participate_in_consensus 0 hashA emptyPIn netFin).2 0 hashA =
       some csFin ∧
     lookupCS ((query_node_opinion hashA ndFin 0).2).consensus_states hashA =
       some csFin ∧
     entryAt (run_consensus_on_block blkA [emptyPIn] netFin).2 0 hashA =
       some csFin) :=
  ⟨⟨by decide, by decide, by decide⟩,
   finalized_preference_immutable netFin 0 hashA csFin ndFin 0 hashA emptyPIn
     blkA [emptyPIn] hashA 0 (by decide) (by decide) (by decide)⟩

end Avalanche

namespace Avalanche

/-! ## C5: the short-circuit on finalized items -/

/-- C5 (amended): once a block's hash is in the node's finalized set or its
ConsensusState is finalized, participate_in_consensus leaves the network
untouched and returns true when the hash is in the finalized set, and the
stored preference compared with 1 otherwise.  Because no state changes and
the answer depends only on the state, repeated calls (with any oracle
inputs) all return the same value. -/
theorem participate_finalized_short_circuit (net : List NodeSt) (i : Nat)
    (h : String) (inp : PIn) (self : NodeSt)
    (hnd : getNth net i = some self)
    (hfin : h ∈ self.finalized_blocks ∨
      ∃ s, lookupCS self.consensus_states h = some s ∧ s.finalized = true) :
    (participate_in_consensus i h inp net).2 = net ∧
    (participate_in_consensus i h inp net).1 =
      (decide (h ∈ self.finalized_blocks) ||
        (match lookupCS self.consensus_states h with
         | some s => decide (s.current_preference = 1)
         | none => false)) := by
  by_cases hfb : h ∈ self.finalized_blocks
  · constructor <;> simp [participate_in_consensus, hnd, hfb]
  · rcases hfin with hfb' | ⟨s, hcs, hf2⟩
    · exact absurd hfb' hfb
    · constructor <;> simp [participate_in_consensus, hnd, hfb, hcs, hf2]

/-- Witness for participate_finalized_short_circuit at a concrete node. -/
theorem participate_finalized_short_circuit_witness :
    (getNth netFin 0 = some ndFin ∧
     (hashA ∈ ndFin.finalized_blocks ∨
      ∃ s, lookupCS ndFin.consensus_states hashA = some s ∧
        s.finalized = true)) ∧
    ((participate_in_consensus 0 hashA emptyPIn netFin).2 = netFin ∧
     (participate_in_consensus 0 hashA emptyPIn netFin).1 =
       (decide (hashA ∈ ndFin.finalized_blocks) ||
         (match lookupCS ndFin.consensus_states hashA with
          | some s => decide (s.current_preference = 1)
          | none => false))) :=
  ⟨⟨by decide, Or.inl (by decide)⟩,
   participate_finalized_short_circuit netFin 0 hashA emptyPIn ndFin
     (by decide) (Or.inl (by decide))⟩

/-- A node with no history. -/
def freshNode (pk : Pk) : NodeSt :=
  { public_key := pk, blockchain := [], consensus_states := [],
    finalized_blocks := [] }

/-- A fresh three-node network. -/
def net3 : List NodeSt := [freshNode (1, 1), freshNode (2, 2), freshNode (3, 3)]

/-- Five samples of node 2, synthesizing accept opinions. -/
def q21 : List (Nat × Fin 2) := [(2, 1), (2, 1), (2, 1), (2, 1), (2, 1)]

/-- Five samples of node 1, synthesizing accept opinions. -/
def q11 : List (Nat × Fin 2) := [(1, 1), (1, 1), (1, 1), (1, 1), (1, 1)]

/-- Oracle input steering a node toward acceptance by sampling node 2. -/
def accIn1 : PIn :=
  { gcoin := 1, slushQs := [], sfRounds := [q21], sbRounds := [q21, q21, q21] }

/-- Oracle input steering a node toward acceptance by sampling node 1. -/
def accIn2 : PIn :=
  { gcoin := 1, slushQs := [], sfRounds := [q11], sbRounds := [q11, q11, q11] }

/-- A non-genesis block with fingerprint hashB. -/
def blkB : Blk :=
  { index := 1, transactions := [], previous_hash := hashA, hash := hashB }

/-- The network after one public consensus run on blkB from net3: node 0
(empty samples) finalizes a reject preference, nodes 1 and 2 accept, the
2-versus-1 majority accepts the block, so add_block puts hashB into node
0's finalized set while its ConsensusState keeps preference 0. -/
def netC5 : List NodeSt :=
  (run_consensus_on_block blkB [emptyPIn, accIn1, accIn2] net3).2

/-- Counterexample to C5 as stated: in the reachable network netC5, node
0's state for hashB is finalized with preference 0, yet a subsequent
participation returns accept (the finalized-set check fires first), so the
returned outcome is not "accept iff preference == 1". -/
theorem participate_finalized_claim_cex :
    (entryAt netC5 0 hashB).map ConsensusState.finalized = some true ∧
    (entryAt netC5 0 hashB).map ConsensusState.current_preference = some 0 ∧
    (participate_in_consensus 0 hashB emptyPIn netC5).1 = true := by
  decide

end Avalanche

namespace Avalanche

/-! ## C1 and C2: the Snowflake round -/

/-- C1 (amended): whenever the sampled majority differs from the node's
current preference, the Snowflake round resets consecutive_count to 0 (the
source resets to 0, not to 1) and overwrites the preference with the
sampled majority. -/
theorem snowflake_reset_overwrites (state : ConsensusState)
    (opinions : List Nat)
    (hne : majorityOf opinions ≠ state.current_preference) :
    (snowflakeUpdate state opinions).consecutive_count = 0 ∧
    (snowflakeUpdate state opinions).current_preference =
      majorityOf opinions := by
  have hcond : ¬(opinions.sum ≥ quorum_threshold ∧
      majorityOf opinions = state.current_preference) := fun hc => hne hc.2
  simp [snowflakeUpdate, hcond]

/-- Witness for snowflake_reset_overwrites on an all-reject sample against
preference 1. -/
theorem snowflake_reset_overwrites_witness :
    majorityOf [0, 0, 0, 0, 0] ≠ (initCS hashA 1).current_preference ∧
    ((snowflakeUpdate (initCS hashA 1) [0, 0, 0, 0, 0]).consecutive_count =
       0 ∧
     (snowflakeUpdate (initCS hashA 1) [0, 0, 0, 0, 0]).current_preference =
       majorityOf [0, 0, 0, 0, 0]) :=
  ⟨by decide, snowflake_reset_overwrites (initCS hashA 1) [0, 0, 0, 0, 0]
    (by decide)⟩

/-- Counterexample to C1 as stated: with preference 1 and an all-reject
sample (majority 0 ≠ 1), the round sets consecutive_count to 0, not to 1. -/
theorem snowflake_reset_claim_cex :
    majorityOf [0, 0, 0, 0, 0] ≠ (initCS hashA 1).current_preference ∧
    (snowflakeUpdate (initCS hashA 1) [0, 0, 0, 0, 0]).consecutive_count ≠
      1 := by
  decide

/-- C2 (amended): the Snowflake round increments consecutive_count exactly
when the sampled accept-count reaches the quorum threshold — the source
always tests the accept-count, regardless of whether the current
preference is accept or reject — and the sampled majority equals the
current preference; in every other case it resets the counter to 0 and
adopts the sampled majority as the preference. -/
theorem snowflake_increment_characterization (state : ConsensusState)
    (opinions : List Nat) :
    ((snowflakeUpdate state opinions).consecutive_count =
        state.consecutive_count + 1 ↔
      (opinions.sum ≥ quorum_threshold ∧
        majorityOf opinions = state.current_preference)) ∧
    (snowflakeUpdate state opinions).consecutive_count =
      (if opinions.sum ≥ quorum_threshold ∧
          majorityOf opinions = state.current_preference then
        state.consecutive_count + 1
       else 0) ∧
    (snowflakeUpdate state opinions).current_preference =
      (if opinions.sum ≥ quorum_threshold ∧
          majorityOf opinions = state.current_preference then
        state.current_preference
       else majorityOf opinions) := by
  by_cases hc : opinions.sum ≥ quorum_threshold ∧
      majorityOf opinions = state.current_preference
  · simp [snowflakeUpdate, hc]
  · simp [snowflakeUpdate, hc]

/-- Counterexample to C2 as stated: with preference 0 and an all-reject
sample, the reject-count (5) reaches the quorum threshold and the majority
(0) equals the preference, so the claim demands an increment; the source
tests the accept-count (0) instead and resets the counter. -/
theorem snowflake_increment_claim_cex :
    ([0, 0, 0, 0, 0].length - [0, 0, 0, 0, 0].sum ≥ quorum_threshold ∧
     majorityOf [0, 0, 0, 0, 0] = (initCS hashA 0).current_preference) ∧
    (snowflakeUpdate (initCS hashA 0) [0, 0, 0, 0, 0]).consecutive_count ≠
      (initCS hashA 0).consecutive_count + 1 := by
  decide

/-! ## C3: what proposal-time validation actually rejects -/

/-- C3 (amended): create_transaction refuses to produce a transaction
exactly when the sender's replayed balance is strictly below the requested
amount; the sign of the amount is never examined, so a negative or zero
amount is produced whenever the balance covers it. -/
theorem create_transaction_none_iff (chain : List Blk)
    (selfPk recipient : Pk) (amount : ℚ) :
    create_transaction chain selfPk recipient amount = none ↔
      balanceOf chain selfPk < amount := by
  by_cases hlt : balanceOf chain selfPk < amount <;>
    simp [create_transaction, hlt]

/-- Counterexample to C3 as stated: a transaction over a negative amount
(-5) is created and signed — the empty-chain balance 0 is not below -5, so
the only guard passes. -/
theorem create_transaction_negative_cex :
    (-5 : ℚ) < 0 ∧
    create_transaction [] (1, 1) (2, 2) (-5) =
      some { sender_public_key := (1, 1), recipient_public_key := (2, 2),
             amount := -5 } := by
  constructor
  · norm_num
  · rfl

/-! ## C4: strict-majority aggregation -/

/-- C4: for a non-genesis run, the network decision is accept exactly when
the nodes' accept outcomes strictly outnumber their reject outcomes; with
10 nodes, 6 accepts against 4 rejects is accepted and a 5-5 tie is
rejected. -/
theorem network_decision_strict_majority (b : Blk) (ins : List PIn)
    (net : List NodeSt)
    (hng : (decide (b.index = 0) &&
      (match getNth net 0 with
       | some n0 => n0.blockchain.isEmpty
       | none => false)) = false) :
    ((run_consensus_on_block b ins net).1 = true ↔
      acceptCount (participateAll b.hash ins 0 net).1 >
        (participateAll b.hash ins 0 net).1.length -
          acceptCount (participateAll b.hash ins 0 net).1) ∧
    networkDecision [true, true, true, true, true, true, false, false,
      false, false] = true ∧
    networkDecision [true, true, true, true, true, false, false, false,
      false, false] = false := by
  refine ⟨?_, by decide, by decide⟩
  unfold run_consensus_on_block
  simp only [hng, Bool.false_eq_true, if_false]
  by_cases hd : networkDecision (participateAll b.hash ins 0 net).1
  · simp only [hd, if_true]
    simp only [networkDecision, decide_eq_true_eq] at hd
    simpa using hd
  · simp only [hd, if_false, Bool.false_eq_true]
    simp only [networkDecision, decide_eq_true_eq] at hd
    simpa using hd

/-- Witness for network_decision_strict_majority on a one-node non-genesis
run with no oracle inputs (no participants, zero accepts, rejected). -/
theorem network_decision_strict_majority_witness :
    ((decide (blkA.index = 0) &&
      (match getNth net3 0 with
       | some n0 => n0.blockchain.isEmpty
       | none => false)) = false) ∧
    (((run_consensus_on_block blkA [] net3).1 = true ↔
      acceptCount (participateAll blkA.hash [] 0 net3).1 >
        (participateAll blkA.hash [] 0 net3).1.length -
          acceptCount (participateAll blkA.hash [] 0 net3).1) ∧
     networkDecision [true, true, true, true, true, true, false, false,
       false, false] = true ∧
     networkDecision [true, true, true, true, true, false, false, false,
       false, false] = false) :=
  ⟨by decide, network_decision_strict_majority blkA [] net3 (by decide)⟩

/-! ## C6: opinion queries are stable -/

theorem lookupCS_mem (m : List (String × ConsensusState)) (h : String)
    (s : ConsensusState) (hs : lookupCS m h = some s) : (h, s) ∈ m := by
  induction m with
  | nil => exact Option.noConfusion hs
  | cons kv t ih =>
    obtain ⟨k, v⟩ := kv
    by_cases hk : k = h
    · subst hk
      simp only [lookupCS, if_pos rfl] at hs
      rw [Option.some.inj hs]
      exact List.mem_cons_self _ _
    · simp only [lookupCS, if_neg hk] at hs
      exact List.mem_cons_of_mem _ (ih hs)

/-- C6: query_node_opinion resolves in order — 1 for a finalized item, the
stored preference for a known item, the synthesized coin for a new item,
which is persisted on the peer — so a second query of the same peer for
the same fingerprint returns the same value, and the value is 0 or 1. -/
theorem query_opinion_stable (peer : NodeSt) (h : String) (c1 c2 : Fin 2)
    (hwf : ∀ e ∈ peer.consensus_states,
      (Prod.snd e).current_preference ≤ 1) :
    (query_node_opinion h (query_node_opinion h peer c1).2 c2).1 =
      (query_node_opinion h peer c1).1 ∧
    (query_node_opinion h peer c1).1 ≤ 1 ∧
    (h ∈ peer.finalized_blocks →
      (query_node_opinion h peer c1).1 = 1 ∧
      (query_node_opinion h peer c1).2 = peer) ∧
    (∀ s, h ∉ peer.finalized_blocks →
      lookupCS peer.consensus_states h = some s →
      (query_node_opinion h peer c1).1 = s.current_preference ∧
      (query_node_opinion h peer c1).2 = peer) ∧
    (h ∉ peer.finalized_blocks →
      lookupCS peer.consensus_states h = none →
      (query_node_opinion h peer c1).1 = c1.val ∧
      lookupCS ((query_node_opinion h peer c1).2).consensus_states h =
        some (initCS h c1.val)) := by
  by_cases hfb : h ∈ peer.finalized_blocks
  · refine ⟨?_, ?_, fun _ => ⟨?_, ?_⟩, fun s hns => absurd hfb hns,
      fun hns => absurd hfb hns⟩ <;> simp [query_node_opinion, hfb]
  · cases hcs : lookupCS peer.consensus_states h with
    | some s =>
      have hple : s.current_preference ≤ 1 :=
        hwf (h, s) (lookupCS_mem peer.consensus_states h s hcs)
      refine ⟨?_, ?_, fun hf => absurd hf hfb, ?_, ?_⟩
      · simp [query_node_opinion, hfb, hcs]
      · simpa [query_node_opinion, hfb, hcs] using hple
      · intro s2 _ hcs2
        have hss : s = s2 := Option.some.inj hcs2
        constructor <;> simp [query_node_opinion, hfb, hcs, hss]
      · intro _ hcs2
        exact Option.noConfusion hcs2
    | none =>
      have hres : (query_node_opinion h peer c1).2 =
          { peer with
              consensus_states := setCS peer.consensus_states h (initCS h c1.val) } := by
        simp [query_node_opinion, hfb, hcs]
      have hv1 : (query_node_opinion h peer c1).1 = c1.val := by
        simp [query_node_opinion, hfb, hcs]
      refine ⟨?_, ?_, fun hf => absurd hf hfb, ?_, ?_⟩
      · rw [hres, hv1]
        have hl : lookupCS (setCS peer.consensus_states h (initCS h c1.val))
            h = some (initCS h c1.val) := lookupCS_setCS_self _ _ _
        dsimp only [query_node_opinion]
        rw [if_neg hfb, hl]
        rfl
      · rw [hv1]
        exact Nat.lt_succ_iff.mp c1.isLt
      · intro s2 _ hcs2
        exact Option.noConfusion hcs2
      · intro _ _
        refine ⟨hv1, ?_⟩
        rw [hres]
        exact lookupCS_setCS_self _ _ _

/-- Witness for query_opinion_stable on a fresh peer (the query synthesizes
and stores the coin value 1). -/
theorem query_opinion_stable_witness :
    (∀ e ∈ (freshNode (1, 1)).consensus_states,
      (Prod.snd e).current_preference ≤ 1) ∧
    ((query_node_opinion hashA
        (query_node_opinion hashA (freshNode (1, 1)) 1).2 0).1 =
      (query_node_opinion hashA (freshNode (1, 1)) 1).1 ∧
     (query_node_opinion hashA (freshNode (1, 1)) 1).1 ≤ 1 ∧
     (hashA ∈ (freshNode (1, 1)).finalized_blocks →
       (query_node_opinion hashA (freshNode (1, 1)) 1).1 = 1 ∧
       (query_node_opinion hashA (freshNode (1, 1)) 1).2 = freshNode (1, 1)) ∧
     (∀ s, hashA ∉ (freshNode (1, 1)).finalized_blocks →
       lookupCS (freshNode (1, 1)).consensus_states hashA = some s →
       (query_node_opinion hashA (freshNode (1, 1)) 1).1 =
         s.current_preference ∧
       (query_node_opinion hashA (freshNode (1, 1)) 1).2 = freshNode (1, 1)) ∧
     (hashA ∉ (freshNode (1, 1)).finalized_blocks →
       lookupCS (freshNode (1, 1)).consensus_states hashA = none →
       (query_node_opinion hashA (freshNode (1, 1)) 1).1 = (1 : Fin 2).val ∧
       lookupCS ((query_node_opinion hashA (freshNode (1, 1)) 1).2).consensus_states
           hashA = some (initCS hashA (1 : Fin 2).val))) :=
  ⟨by decide, query_opinion_stable (freshNode (1, 1)) hashA 1 0 (by decide)⟩

end Avalanche

namespace Avalanche

/-! ## C8: peer sampling -/

theorem filter_ne_of_not_mem {α : Type} [DecidableEq α] (t : List α) (a : α)
    (ha : a ∉ t) : (t.filter fun n => decide (n ≠ a)) = t := by
  induction t with
  | nil => rfl
  | cons x r ih =>
    have hne : x ≠ a := fun e => ha (e ▸ List.mem_cons_self x r)
    rw [List.filter_cons, if_pos (by simpa using hne),
      ih fun hm => ha (List.mem_cons_of_mem _ hm)]

theorem filter_ne_length {α : Type} [DecidableEq α] (l : List α) (a : α)
    (hnd : l.Nodup) (ha : a ∈ l) :
    (l.filter fun n => decide (n ≠ a)).length = l.length - 1 := by
  induction l with
  | nil => cases ha
  | cons x t ih =>
    obtain ⟨hxt, hnd'⟩ := List.nodup_cons.mp hnd
    rcases List.mem_cons.mp ha with rfl | hat
    · rw [List.filter_cons, if_neg (by simp)]
      rw [filter_ne_of_not_mem t a hxt]
      simp
    · have hxa : x ≠ a := fun e => hxt (e ▸ hat)
      have hpos : 0 < t.length := List.length_pos.mpr (List.ne_nil_of_mem hat)
      rw [List.filter_cons, if_pos (by simpa using hxa)]
      simp only [List.length_cons, ih hnd' hat]
      omega

theorem filterMap_get_cons {α : Type} (j : Nat) (r : List Nat) (l : List α)
    (x : α) (hx : l.get? j = some x) :
    ((j :: r).filterMap fun i => l.get? i) =
      x :: r.filterMap fun i => l.get? i := by
  rw [List.filterMap_cons, hx]

theorem filterMap_get_length {α : Type} (idxs : List Nat) (l : List α)
    (hb : ∀ j ∈ idxs, j < l.length) :
    (idxs.filterMap fun j => l.get? j).length = idxs.length := by
  induction idxs with
  | nil => rfl
  | cons j r ih =>
    have hj : j < l.length := hb j (List.mem_cons_self _ _)
    rw [filterMap_get_cons j r l _ (List.get?_eq_get hj)]
    simp only [List.length_cons]
    rw [ih fun a ha => hb a (List.mem_cons_of_mem _ ha)]

theorem filterMap_get_mem {α : Type} (idxs : List Nat) (l : List α) (x : α)
    (hx : x ∈ idxs.filterMap fun j => l.get? j) : x ∈ l := by
  obtain ⟨j, _, hj⟩ := List.mem_filterMap.mp hx
  exact List.get?_mem hj

theorem filterMap_get_nodup {α : Type} (idxs : List Nat) (l : List α)
    (hl : l.Nodup) (hi : idxs.Nodup)
    (hb : ∀ j ∈ idxs, j < l.length) :
    (idxs.filterMap fun j => l.get? j).Nodup := by
  induction idxs with
  | nil => exact List.nodup_nil
  | cons j r ih =>
    have hj : j < l.length := hb j (List.mem_cons_self _ _)
    obtain ⟨hjr, hr⟩ := List.nodup_cons.mp hi
    rw [filterMap_get_cons j r l _ (List.get?_eq_get hj)]
    refine List.nodup_cons.mpr ⟨?_, ih hr fun a ha => hb a (List.mem_cons_of_mem _ ha)⟩
    intro hmem
    obtain ⟨j2, hj2r, hj2⟩ := List.mem_filterMap.mp hmem
    have : l.get? j = l.get? j2 := by
      rw [List.get?_eq_get hj, hj2]
    exact hjr (List.get?_inj hj hl this ▸ hj2r)

/-- C8: sampling never fails — with the randomness modelled as a
duplicate-free full-range index order over the peers other than the
sampling node, sample_nodes returns min(k, n-1) distinct nodes drawn from
the network, never including the sampling node itself. -/
theorem sample_nodes_spec {α : Type} [DecidableEq α] (network : List α)
    (self : α) (idxs : List Nat)
    (hnd : network.Nodup) (hself : self ∈ network) (hidx : idxs.Nodup)
    (hbound : ∀ j ∈ idxs,
      j < (network.filter fun n => decide (n ≠ self)).length)
    (hlen : idxs.length =
      (network.filter fun n => decide (n ≠ self)).length) :
    (sample_nodes network self idxs).length =
      min sample_size (network.length - 1) ∧
    (sample_nodes network self idxs).Nodup ∧
    self ∉ sample_nodes network self idxs ∧
    ∀ x ∈ sample_nodes network self idxs, x ∈ network := by
  have havail : (network.filter fun n => decide (n ≠ self)).length =
      network.length - 1 := filter_ne_length network self hnd hself
  have hfl : ((idxs.filterMap fun j =>
      (network.filter fun n => decide (n ≠ self)).get? j)).length =
      idxs.length :=
    filterMap_get_length idxs _ hbound
  refine ⟨?_, ?_, ?_, ?_⟩
  · show ((idxs.filterMap fun j =>
        (network.filter fun n => decide (n ≠ self)).get? j).take
        (min sample_size
          (network.filter fun n => decide (n ≠ self)).length)).length = _
    rw [List.length_take, hfl, hlen, havail]
    omega
  · exact (filterMap_get_nodup idxs _ (hnd.filter _) hidx hbound).sublist
      (List.take_sublist _ _)
  · intro hmem
    have hmem2 : self ∈ idxs.filterMap fun j =>
        (network.filter fun n => decide (n ≠ self)).get? j :=
      (List.take_sublist _ _).subset hmem
    have : self ∈ network.filter fun n => decide (n ≠ self) :=
      filterMap_get_mem idxs _ self hmem2
    have := (List.mem_filter.mp this).2
    simp at this
  · intro x hmem
    have hmem2 : x ∈ idxs.filterMap fun j =>
        (network.filter fun n => decide (n ≠ self)).get? j :=
      (List.take_sublist _ _).subset hmem
    exact (List.mem_filter.mp (filterMap_get_mem idxs _ x hmem2)).1

/-- Witness for sample_nodes_spec on a three-node network. -/
theorem sample_nodes_spec_witness :
    (([0, 1, 2] : List Nat).Nodup ∧ (0 : Nat) ∈ [0, 1, 2] ∧
     ([1, 0] : List Nat).Nodup ∧
     (∀ j ∈ [1, 0],
       j < (([0, 1, 2] : List Nat).filter fun n => decide (n ≠ 0)).length) ∧
     ([1, 0] : List Nat).length =
       (([0, 1, 2] : List Nat).filter fun n => decide (n ≠ 0)).length) ∧
    ((sample_nodes [0, 1, 2] 0 [1, 0]).length =
       min sample_size (([0, 1, 2] : List Nat).length - 1) ∧
     (sample_nodes [0, 1, 2] 0 [1, 0]).Nodup ∧
     (0 : Nat) ∉ sample_nodes [0, 1, 2] 0 [1, 0] ∧
     ∀ x ∈ sample_nodes [0, 1, 2] 0 [1, 0], x ∈ [0, 1, 2]) :=
  ⟨⟨by decide, by decide, by decide, by decide, by decide⟩,
   sample_nodes_spec [0, 1, 2] 0 [1, 0] (by decide) (by decide) (by decide)
     (by decide) (by decide)⟩

end Avalanche

namespace Avalanche

/-! ## C9: conservation of value -/

theorem sum_ite_eq_zero (pks : List Pk) (x : Pk) (a : ℚ) (hx : x ∉ pks) :
    (pks.map fun pk => if x = pk then a else 0).sum = 0 := by
  induction pks with
  | nil => rfl
  | cons p r ih =>
    have hxp : x ≠ p := fun e => hx (e ▸ List.mem_cons_self p r)
    simp only [List.map_cons, List.sum_cons, if_neg hxp]
    rw [ih fun hm => hx (List.mem_cons_of_mem _ hm)]
    ring

theorem sum_ite_mem (pks : List Pk) (x : Pk) (a : ℚ) (hnd : pks.Nodup)
    (hx : x ∈ pks) :
    (pks.map fun pk => if x = pk then a else 0).sum = a := by
  induction pks with
  | nil => cases hx
  | cons p r ih =>
    obtain ⟨hpr, hnd'⟩ := List.nodup_cons.mp hnd
    rcases List.mem_cons.mp hx with rfl | hxr
    · simp only [List.map_cons, List.sum_cons]
      rw [sum_ite_eq_zero r x a hpr]
      simp
    · have hxp : x ≠ p := fun e => hpr (e ▸ hxr)
      simp only [List.map_cons, List.sum_cons, if_neg hxp]
      rw [ih hnd' hxr]
      ring

theorem sum_map_add_split (pks : List Pk) (f g : Pk → ℚ) :
    (pks.map fun pk => f pk + g pk).sum = (pks.map f).sum + (pks.map g).sum := by
  induction pks with
  | nil => simp
  | cons p r ih =>
    simp only [List.map_cons, List.sum_cons]
    rw [ih]
    ring

theorem sum_map_txDelta_split (pks : List Pk) (t : Tx) :
    (pks.map fun pk => txDelta pk t).sum =
      (pks.map fun pk =>
        if t.recipient_public_key = pk then t.amount else 0).sum -
      (pks.map fun pk =>
        if t.sender_public_key = pk then t.amount else 0).sum := by
  induction pks with
  | nil => simp
  | cons p r ih =>
    simp only [List.map_cons, List.sum_cons]
    rw [ih]
    unfold txDelta
    ring

theorem sum_txDelta (pks : List Pk) (t : Tx) (hnd : pks.Nodup)
    (h0 : (0, 0) ∉ pks) (hrec : t.recipient_public_key ∈ pks)
    (hsend : t.sender_public_key = (0, 0) ∨ t.sender_public_key ∈ pks) :
    (pks.map fun pk => txDelta pk t).sum =
      if t.sender_public_key = (0, 0) then t.amount else 0 := by
  rw [sum_map_txDelta_split,
    sum_ite_mem pks t.recipient_public_key t.amount hnd hrec]
  rcases hsend with hsys | hmem
  · rw [if_pos hsys, hsys, sum_ite_eq_zero pks (0, 0) t.amount h0]
    ring
  · have hns : ¬ t.sender_public_key = (0, 0) := fun e => h0 (e ▸ hmem)
    rw [sum_ite_mem pks t.sender_public_key t.amount hnd hmem, if_neg hns]
    ring

theorem sum_balTx_nil (pks : List Pk) : (pks.map (balTx [])).sum = 0 := by
  induction pks with
  | nil => rfl
  | cons p r ih => simp [balTx, ih]

theorem conservation_tx (txs : List Tx) (pks : List Pk) (hnd : pks.Nodup)
    (h0 : (0, 0) ∉ pks)
    (hrec : ∀ t ∈ txs, t.recipient_public_key ∈ pks)
    (hsend : ∀ t ∈ txs,
      t.sender_public_key = (0, 0) ∨ t.sender_public_key ∈ pks) :
    (pks.map (balTx txs)).sum =
      ((txs.filter fun t => t.sender_public_key = (0, 0)).map
        Tx.amount).sum := by
  induction txs with
  | nil =>
    simp only [List.filter_nil, List.map_nil, List.sum_nil]
    exact sum_balTx_nil pks
  | cons t ts ih =>
    have hbal : pks.map (balTx (t :: ts)) =
        pks.map fun pk => txDelta pk t + balTx ts pk := by
      simp [balTx]
    rw [hbal, sum_map_add_split pks (fun pk => txDelta pk t) (balTx ts),
      sum_txDelta pks t hnd h0 (hrec t (List.mem_cons_self _ _))
        (hsend t (List.mem_cons_self _ _)),
      ih (fun a ha => hrec a (List.mem_cons_of_mem _ ha))
        (fun a ha => hsend a (List.mem_cons_of_mem _ ha)),
      List.filter_cons]
    by_cases hsys : t.sender_public_key = (0, 0)
    · rw [if_pos hsys, if_pos (by simpa using hsys)]
      simp
    · rw [if_neg hsys, if_neg (by simpa using hsys)]
      ring

/-- C9: over any committed chain in which every recipient key and every
non-system sender key belongs to a (duplicate-free) set of node keys, the
sum of the balances recomputed by full replay equals the total amount
issued by system-sender (0,0) transactions: transfers neither create nor
destroy value. -/
theorem balance_conservation (chain : List Blk) (pks : List Pk)
    (hnd : pks.Nodup) (h0 : (0, 0) ∉ pks)
    (hrec : ∀ t ∈ allTxs chain, t.recipient_public_key ∈ pks)
    (hsend : ∀ t ∈ allTxs chain,
      t.sender_public_key = (0, 0) ∨ t.sender_public_key ∈ pks) :
    (pks.map (balanceOf chain)).sum = issuedTotal chain :=
  conservation_tx (allTxs chain) pks hnd h0 hrec hsend

/-- Genesis issuance of 100 coins to key (1,1). -/
def txG1 : Tx :=
  { sender_public_key := (0, 0), recipient_public_key := (1, 1),
    amount := 100 }

/-- Genesis issuance of 100 coins to key (2,2). -/
def txG2 : Tx :=
  { sender_public_key := (0, 0), recipient_public_key := (2, 2),
    amount := 100 }

/-- A transfer of 30 coins from (1,1) to (2,2). -/
def txT : Tx :=
  { sender_public_key := (1, 1), recipient_public_key := (2, 2),
    amount := 30 }

/-- A two-block chain: genesis issuance then one transfer. -/
def chainW : List Blk :=
  [{ index := 0, transactions := [txG1, txG2], previous_hash := "0",
     hash := hashZ },
   { index := 1, transactions := [txT], previous_hash := hashZ,
     hash := hashA }]

/-- Witness for balance_conservation: balances 70 + 130 equal the 200
coins issued at genesis. -/
theorem balance_conservation_witness :
    (([(1, 1), (2, 2)] : List Pk).Nodup ∧ ((0, 0) : Pk) ∉ [(1, 1), (2, 2)] ∧
     (∀ t ∈ allTxs chainW, t.recipient_public_key ∈ [(1, 1), (2, 2)]) ∧
     (∀ t ∈ allTxs chainW,
       t.sender_public_key = (0, 0) ∨
         t.sender_public_key ∈ [(1, 1), (2, 2)])) ∧
    (([(1, 1), (2, 2)] : List Pk).map (balanceOf chainW)).sum =
      issuedTotal chainW :=
  ⟨⟨by decide, by decide, by decide, by decide⟩,
   balance_conservation chainW [(1, 1), (2, 2)] (by decide) (by decide)
     (by decide) (by decide)⟩

end Avalanche

namespace Avalanche

/-! ## C10: preference counters never outrun confidence -/

/-- The claimed per-state invariant. -/
def csInv (s : ConsensusState) : Prop := s.pc0 + s.pc1 ≤ s.confidence

/-- All of a node's stored consensus states satisfy csInv. -/
def ndInv (nd : NodeSt) : Prop :=
  ∀ h s, lookupCS nd.consensus_states h = some s → csInv s

/-- All consensus states in the network satisfy csInv. -/
def netInv (net : List NodeSt) : Prop :=
  ∀ i h s, entryAt net i h = some s → csInv s

theorem csInv_initCS (h : String) (op : Nat) : csInv (initCS h op) := by
  simp [csInv, initCS]

theorem snowflakeUpdate_counters (s : ConsensusState) (ops : List Nat) :
    (snowflakeUpdate s ops).pc0 = s.pc0 ∧
    (snowflakeUpdate s ops).pc1 = s.pc1 ∧
    (snowflakeUpdate s ops).confidence = s.confidence := by
  by_cases hc : ops.sum ≥ quorum_threshold ∧
      majorityOf ops = s.current_preference <;>
    simp [snowflakeUpdate, hc]

theorem snowballUpdate_fields (s : ConsensusState) (ops : List Nat) :
    (snowballUpdate s ops).confidence = s.confidence + 1 ∧
    (snowballUpdate s ops).pc1 =
      (if ops.sum ≥ quorum_threshold then s.pc1 + 1 else s.pc1) ∧
    (snowballUpdate s ops).pc0 =
      (if ops.sum ≥ quorum_threshold then s.pc0
       else if ops.length - ops.sum ≥ quorum_threshold then s.pc0 + 1
       else s.pc0) := by
  unfold snowballUpdate
  by_cases h1 : ops.sum ≥ quorum_threshold
  · simp [h1]
  · by_cases h2 : ops.length - ops.sum ≥ quorum_threshold <;> simp [h1, h2]

theorem snowballUpdate_csInv (s : ConsensusState) (ops : List Nat)
    (h : csInv s) : csInv (snowballUpdate s ops) := by
  obtain ⟨hc, h1, h0⟩ := snowballUpdate_fields s ops
  unfold csInv at h ⊢
  rw [hc, h1, h0]
  by_cases hq1 : ops.sum ≥ quorum_threshold
  · simp only [hq1, if_true]
    omega
  · by_cases hq2 : ops.length - ops.sum ≥ quorum_threshold <;>
      simp only [hq1, hq2, if_true, if_false] <;> omega

theorem snowflakeUpdate_csInv (s : ConsensusState) (ops : List Nat)
    (h : csInv s) : csInv (snowflakeUpdate s ops) := by
  obtain ⟨h0, h1, hc⟩ := snowflakeUpdate_counters s ops
  unfold csInv at h ⊢
  rw [hc, h1, h0]
  exact h

theorem finalizeCS_csInv (s : ConsensusState) (h : csInv s) :
    csInv (finalizeCS s) := h

theorem netInv_getNth (net : List NodeSt) (i : Nat) (nd : NodeSt)
    (hinv : netInv net) (hnd : getNth net i = some nd) : ndInv nd := by
  intro h s hs
  exact hinv i h s (by simp [entryAt, hnd, hs])

theorem netInv_setNth (net : List NodeSt) (j : Nat) (y : NodeSt)
    (hinv : netInv net) (hy : ndInv y) : netInv (setNth net j y) := by
  intro i h s hs
  simp only [entryAt] at hs
  cases hg : getNth (setNth net j y) i with
  | none => rw [hg] at hs; exact Option.noConfusion hs
  | some nd =>
    rw [hg, Option.some_bind] at hs
    rcases getNth_setNth_cases net j i y nd hg with ⟨_, rfl⟩ | hold
    · exact hy h s hs
    · exact hinv i h s (by simp [entryAt, hold, hs])

theorem ndInv_setCS (nd : NodeSt) (h2 : String) (s2 : ConsensusState)
    (hnd : ndInv nd) (hs2 : csInv s2) :
    ndInv { nd with consensus_states := setCS nd.consensus_states h2 s2 } := by
  intro h s hs
  rcases lookupCS_setCS_cases nd.consensus_states h2 h s2 s hs with rfl | hold
  · exact hs2
  · exact hnd h s hold

theorem query_ndInv (h : String) (peer : NodeSt) (c : Fin 2)
    (hpeer : ndInv peer) : ndInv (query_node_opinion h peer c).2 := by
  by_cases hfb : h ∈ peer.finalized_blocks
  · simpa [query_node_opinion, hfb] using hpeer
  · cases hcs : lookupCS peer.consensus_states h with
    | some s => simpa [query_node_opinion, hfb, hcs] using hpeer
    | none =>
      have hres : (query_node_opinion h peer c).2 =
          { peer with
              consensus_states := setCS peer.consensus_states h (initCS h c.val) } := by
        simp [query_node_opinion, hfb, hcs]
      rw [hres]
      exact ndInv_setCS peer h (initCS h c.val) hpeer (csInv_initCS h c.val)

theorem queryMany_netInv (h : String) (qs : List (Nat × Fin 2))
    (net : List NodeSt) (hinv : netInv net) :
    netInv (queryMany h qs net).2 := by
  induction qs generalizing net with
  | nil => exact hinv
  | cons q rest ih =>
    obtain ⟨j, c⟩ := q
    simp only [queryMany]
    cases hj : getNth net j with
    | none => exact ih net hinv
    | some peer =>
      exact ih _ (netInv_setNth net j _ hinv
        (query_ndInv h peer c (netInv_getNth net j peer hinv hj)))

theorem writeCS_netInv (net : List NodeSt) (j : Nat) (h2 : String)
    (s2 : ConsensusState) (hinv : netInv net) (hs2 : csInv s2) :
    netInv (writeCS net j h2 s2) := by
  unfold writeCS
  cases hj : getNth net j with
  | none => exact hinv
  | some nd =>
    exact netInv_setNth net j _ hinv
      (ndInv_setCS nd h2 s2 (netInv_getNth net j nd hinv hj) hs2)

end Avalanche

namespace Avalanche

theorem snowflake_phase_netInv (i : Nat) (h : String) (qs : List (Nat × Fin 2))
    (net : List NodeSt) (hinv : netInv net) :
    netInv (snowflake_phase i h qs net).2 := by
  cases hi : getNth net i with
  | none => simp only [snowflake_phase, hi]; exact hinv
  | some self =>
    cases hcs : lookupCS self.consensus_states h with
    | none => simp only [snowflake_phase, hi, hcs]; exact hinv
    | some state =>
      simp only [snowflake_phase, hi, hcs]
      exact writeCS_netInv _ i h _ (queryMany_netInv h qs net hinv)
        (snowflakeUpdate_csInv state _
          (netInv_getNth net i self hinv hi h state hcs))

theorem snowball_phase_netInv (i : Nat) (h : String) (qs : List (Nat × Fin 2))
    (net : List NodeSt) (hinv : netInv net) :
    netInv (snowball_phase i h qs net).2 := by
  cases hi : getNth net i with
  | none => simp only [snowball_phase, hi]; exact hinv
  | some self =>
    cases hcs : lookupCS self.consensus_states h with
    | none => simp only [snowball_phase, hi, hcs]; exact hinv
    | some state =>
      simp only [snowball_phase, hi, hcs]
      exact writeCS_netInv _ i h _ (queryMany_netInv h qs net hinv)
        (snowballUpdate_csInv state _
          (netInv_getNth net i self hinv hi h state hcs))

theorem avalanche_phase_netInv (i : Nat) (h : String) (net : List NodeSt)
    (hinv : netInv net) : netInv (avalanche_phase i h net).2 := by
  cases hi : getNth net i with
  | none => simp only [avalanche_phase, hi]; exact hinv
  | some self =>
    cases hcs : lookupCS self.consensus_states h with
    | none => simp only [avalanche_phase, hi, hcs]; exact hinv
    | some state =>
      simp only [avalanche_phase, hi, hcs]
      apply netInv_setNth net i _ hinv
      intro h' s' hs'
      rcases lookupCS_setCS_cases self.consensus_states h h'
          (finalizeCS state) s' hs' with rfl | hold
      · exact finalizeCS_csInv state
          (netInv_getNth net i self hinv hi h state hcs)
      · exact netInv_getNth net i self hinv hi h' s' hold

theorem snowflakeLoop_netInv (fuel : Nat)
    (rounds : List (List (Nat × Fin 2))) (i : Nat) (h : String)
    (net : List NodeSt) (hinv : netInv net) :
    netInv (snowflakeLoop fuel rounds i h net).2 := by
  induction fuel generalizing rounds net with
  | zero => exact hinv
  | succ fuel ih =>
    simp only [snowflakeLoop]
    by_cases hdone : (snowflake_phase i h (rounds.headD []) net).1
    · simp only [hdone, if_true]
      exact snowflake_phase_netInv i h _ net hinv
    · simp only [hdone, if_false, Bool.false_eq_true]
      exact ih rounds.tail _ (snowflake_phase_netInv i h _ net hinv)

theorem snowballLoop_netInv (fuel : Nat)
    (rounds : List (List (Nat × Fin 2))) (i : Nat) (h : String)
    (net : List NodeSt) (hinv : netInv net) :
    netInv (snowballLoop fuel rounds i h net).2 := by
  induction fuel generalizing rounds net with
  | zero => exact hinv
  | succ fuel ih =>
    simp only [snowballLoop]
    by_cases hdone : (snowball_phase i h (rounds.headD []) net).1
    · simp only [hdone, if_true]
      exact snowball_phase_netInv i h _ net hinv
    · simp only [hdone, if_false, Bool.false_eq_true]
      exact ih rounds.tail _ (snowball_phase_netInv i h _ net hinv)

theorem runPhases_netInv (i : Nat) (h : String) (inp : PIn)
    (net : List NodeSt) (hinv : netInv net) :
    netInv (runPhases i h inp net).2 := by
  unfold runPhases
  exact avalanche_phase_netInv i h _
    (snowballLoop_netInv 10 inp.sbRounds i h _
      (snowflakeLoop_netInv 5 inp.sfRounds i h net hinv))

theorem participate_netInv (j : Nat) (h : String) (inp : PIn)
    (net : List NodeSt) (hinv : netInv net) :
    netInv (participate_in_consensus j h inp net).2 := by
  cases hj : getNth net j with
  | none => simp only [participate_in_consensus, hj]; exact hinv
  | some self =>
    by_cases hfb : h ∈ self.finalized_blocks
    · simp only [participate_in_consensus, hj, if_pos hfb]; exact hinv
    · cases hcs : lookupCS self.consensus_states h with
      | some s2 =>
        by_cases hf2 : s2.finalized
        · simp only [participate_in_consensus, hj, if_neg hfb, hcs, hf2,
            if_true]
          exact hinv
        · simp only [participate_in_consensus, hj, if_neg hfb, hcs, hf2,
            if_false, Bool.false_eq_true]
          exact runPhases_netInv j h inp net hinv
      | none =>
        simp only [participate_in_consensus, hj, if_neg hfb, hcs]
        apply runPhases_netInv
        by_cases hg : hashIsGenesis h || self.blockchain.isEmpty
        · simp only [hg, if_true]
          exact writeCS_netInv net j h _ hinv (csInv_initCS _ _)
        · simp only [hg, if_false, Bool.false_eq_true]
          apply writeCS_netInv
          · unfold slush_phase
            exact queryMany_netInv h inp.slushQs net hinv
          · exact csInv_initCS _ _

theorem participateAll_netInv (h : String) (ins : List PIn) (j : Nat)
    (net : List NodeSt) (hinv : netInv net) :
    netInv (participateAll h ins j net).2 := by
  induction ins generalizing j net with
  | nil => exact hinv
  | cons inp rest ih =>
    simp only [participateAll]
    exact ih (j + 1) _ (participate_netInv j h inp net hinv)

theorem netInv_map_cs (net : List NodeSt) (f : NodeSt → NodeSt)
    (hf : ∀ n, (f n).consensus_states = n.consensus_states)
    (hinv : netInv net) : netInv (net.map f) := by
  intro i h s hs
  rw [entryAt_map_cs net i h f hf] at hs
  exact hinv i h s hs

theorem run_consensus_netInv (b : Blk) (ins : List PIn) (net : List NodeSt)
    (hinv : netInv net) : netInv (run_consensus_on_block b ins net).2 := by
  unfold run_consensus_on_block
  by_cases hg : (decide (b.index = 0) &&
      (match getNth net 0 with
       | some n0 => n0.blockchain.isEmpty
       | none => false)) = true
  · simp only [hg, if_true]
    exact netInv_map_cs net _ (fun n => rfl) hinv
  · simp only [hg, if_false, Bool.false_eq_true]
    have hpre := participateAll_netInv b.hash ins 0 net hinv
    by_cases hd : networkDecision (participateAll b.hash ins 0 net).1
    · simp only [hd, if_true]
      refine netInv_map_cs _ _ (fun n => ?_) hpre
      by_cases hb : b.hash ∈ n.blockchain.map Blk.hash <;>
        simp [hb, add_block]
    · simp only [hd, if_false, Bool.false_eq_true]
      exact hpre

/-- A single external opinion query against node j, as a network
operation. -/
def queryStep (j : Nat) (h : String) (c : Fin 2) (net : List NodeSt) :
    List NodeSt :=
  match getNth net j with
  | some peer => setNth net j (query_node_opinion h peer c).2
  | none => net

theorem queryStep_netInv (j : Nat) (h : String) (c : Fin 2)
    (net : List NodeSt) (hinv : netInv net) : netInv (queryStep j h c net) := by
  unfold queryStep
  cases hj : getNth net j with
  | none => exact hinv
  | some peer =>
    exact netInv_setNth net j _ hinv
      (query_ndInv h peer c (netInv_getNth net j peer hinv hj))

/-- The networks reachable through the public interface: a freshly
initialized node set, then any interleaving of opinion queries, single-node
participations and network consensus runs. -/
inductive NetReachable : List NodeSt → Prop where
  | start (pks : List Pk) : NetReachable (pks.map freshNode)
  | query (net : List NodeSt) (j : Nat) (h : String) (c : Fin 2) :
      NetReachable net → NetReachable (queryStep j h c net)
  | part (net : List NodeSt) (j : Nat) (h : String) (inp : PIn) :
      NetReachable net → NetReachable (participate_in_consensus j h inp net).2
  | consensus (net : List NodeSt) (b : Blk) (ins : List PIn) :
      NetReachable net → NetReachable (run_consensus_on_block b ins net).2

theorem netInv_fresh (pks : List Pk) : netInv (pks.map freshNode) := by
  intro i h s hs
  exfalso
  induction pks generalizing i with
  | nil => simp [entryAt, getNth] at hs
  | cons p r ih =>
    cases i with
    | zero => simp [entryAt, getNth, freshNode, lookupCS] at hs
    | succ i => exact ih i (by simpa [entryAt, getNth] using hs)

theorem netInv_reachable (net : List NodeSt) (hr : NetReachable net) :
    netInv net := by
  induction hr with
  | start pks => exact netInv_fresh pks
  | query net j h c _ ih => exact queryStep_netInv j h c net ih
  | part net j h inp _ ih => exact participate_netInv j h inp net ih
  | consensus net b ins _ ih => exact run_consensus_netInv b ins net ih

/-- C10: in every reachable ConsensusState the two preference counters sum
to at most the confidence; each Snowball round raises confidence by exactly
1 and bumps pc1 only on an accept quorum and pc0 only on a reject quorum
(and never both). -/
theorem snowball_counter_invariant (net : List NodeSt) (i : Nat) (h : String)
    (s s0 : ConsensusState) (opinions : List Nat)
    (hreach : NetReachable net) (hs : entryAt net i h = some s) :
    s.pc0 + s.pc1 ≤ s.confidence ∧
    (snowballUpdate s0 opinions).confidence = s0.confidence + 1 ∧
    (snowballUpdate s0 opinions).pc1 =
      (if opinions.sum ≥ quorum_threshold then s0.pc1 + 1 else s0.pc1) ∧
    (snowballUpdate s0 opinions).pc0 =
      (if opinions.sum ≥ quorum_threshold then s0.pc0
       else if opinions.length - opinions.sum ≥ quorum_threshold then
         s0.pc0 + 1
       else s0.pc0) := by
  obtain ⟨hc, h1, h0⟩ := snowballUpdate_fields s0 opinions
  exact ⟨netInv_reachable net hreach i h s hs, hc, h1, h0⟩

/-- Witness for snowball_counter_invariant: the network obtained from one
fresh node by a single opinion query, whose synthesized state it stores. -/
theorem snowball_counter_invariant_witness :
    NetReachable (queryStep 0 hashA 1 [freshNode (1, 1)]) ∧
    entryAt (queryStep 0 hashA 1 [freshNode (1, 1)]) 0 hashA =
      some (initCS hashA 1) ∧
    ((initCS hashA 1).pc0 + (initCS hashA 1).pc1 ≤
       (initCS hashA 1).confidence ∧
     (snowballUpdate (initCS hashA 0) [1, 1, 1, 1, 1]).confidence =
       (initCS hashA 0).confidence + 1 ∧
     (snowballUpdate (initCS hashA 0) [1, 1, 1, 1, 1]).pc1 =
       (if [1, 1, 1, 1, 1].sum ≥ quorum_threshold then
         (initCS hashA 0).pc1 + 1
        else (initCS hashA 0).pc1) ∧
     (snowballUpdate (initCS hashA 0) [1, 1, 1, 1, 1]).pc0 =
       (if [1, 1, 1, 1, 1].sum ≥ quorum_threshold then (initCS hashA 0).pc0
        else if [1, 1, 1, 1, 1].length - [1, 1, 1, 1, 1].sum ≥
            quorum_threshold then
          (initCS hashA 0).pc0 + 1
        else (initCS hashA 0).pc0)) :=
  ⟨NetReachable.query [freshNode (1, 1)] 0 hashA 1 (NetReachable.start [(1, 1)]),
   by decide,
   snowball_counter_invariant (queryStep 0 hashA 1 [freshNode (1, 1)]) 0 hashA
     (initCS hashA 1) (initCS hashA 0) [1, 1, 1, 1, 1]
     (NetReachable.query [freshNode (1, 1)] 0 hashA 1
       (NetReachable.start [(1, 1)]))
     (by decide)⟩

end Avalanche
